import Mathlib

/-!
Verification of the rollf daily-draw bot (src/rollf.py).

The development shallowly embeds the time-window arithmetic, the SQL
queries over the `rolls` table, the streak calculator, the scheduler
loop body and the delivery fan-out, and proves the frozen claims about
them.
-/

namespace Rollf

/-! ## Timezone model (Europe/Stockholm)

The source fixes `TZ = ZoneInfo("Europe/Stockholm")` (CET, UTC+1, with
summer time CEST, UTC+2).  We model the offset as a function of the UTC
instant, with the DST intervals of 2024 and 2025 embedded explicitly
(transitions at 01:00 UTC on the last Sundays of March and October);
outside those intervals the model uses the standard CET offset.
All times are integer Unix seconds, matching the source's use of
`int(ts)` everywhere. -/

/-- DST ("summer time") intervals as half-open intervals of UTC instants:
2024-03-31T01:00Z to 2024-10-27T01:00Z and 2025-03-30T01:00Z to
2025-10-26T01:00Z. -/
def dstUtc (ts : ℤ) : Prop :=
  (1711846800 ≤ ts ∧ ts < 1729990800) ∨ (1743296400 ≤ ts ∧ ts < 1761440400)

instance (ts : ℤ) : Decidable (dstUtc ts) := by
  unfold dstUtc; infer_instance

/-- UTC offset (seconds) in effect at a UTC instant. -/
def offsetUtc (ts : ℤ) : ℤ := if dstUtc ts then 7200 else 3600

/-- The same DST intervals, expressed over naive local ("wall clock")
seconds with Python's `fold=0` disambiguation: a naive local time `n`
carries the CEST offset exactly when `S + 7200 ≤ n < F + 7200` for a
transition pair `(S, F)`; times in the spring gap resolve to the
pre-transition offset and ambiguous autumn times to the earlier
(CEST) instant, as `datetime.timestamp()` does for `fold=0`. -/
def dstLocal (n : ℤ) : Prop :=
  (1711846800 + 7200 ≤ n ∧ n < 1729990800 + 7200) ∨
  (1743296400 + 7200 ≤ n ∧ n < 1761440400 + 7200)

instance (n : ℤ) : Decidable (dstLocal n) := by
  unfold dstLocal; infer_instance

/-- UTC offset attributed to a naive local time (Python `fold=0`). -/
def offsetLocal (n : ℤ) : ℤ := if dstLocal n then 7200 else 3600

/-- Naive local seconds shown by the configured zone's wall clock at a
UTC instant: `datetime.fromtimestamp(ts, TZ)` without its date split. -/
def toLocal (ts : ℤ) : ℤ := ts + offsetUtc ts

/-- Local calendar date (as days since the epoch) of a UTC instant:
`datetime.fromtimestamp(ts, TZ).date()`. -/
def localDate (ts : ℤ) : ℤ := toLocal ts / 86400

/-- UTC instant of a naive local time:
`datetime(...naive fields..., tzinfo=TZ).timestamp()` with `fold=0`. -/
def fromLocalNaive (n : ℤ) : ℤ := n - offsetLocal n

/-- Seconds since local midnight at a UTC instant. -/
def secOfDay (ts : ℤ) : ℤ := toLocal ts % 86400

/-- Local hour at a UTC instant: `datetime.now(TZ).hour`. -/
def hourOf (ts : ℤ) : ℤ := secOfDay ts / 3600

/-- `today_range()` (src/rollf.py lines 38-42): midnight of now's local
calendar date and midnight of the next date, both as UTC timestamps. -/
def today_range (now : ℤ) : ℤ × ℤ :=
  (fromLocalNaive (86400 * localDate now), fromLocalNaive (86400 * localDate now + 86400))

/-- `(now + timedelta(days=1)).replace(hour=5, minute=55, second=0,
microsecond=0)` as a UTC instant (scheduler lines 292 and 297): 05:55
local wall-clock time on the day after now's local date. -/
def tomorrow555 (now : ℤ) : ℤ := fromLocalNaive (86400 * (localDate now + 1) + 21300)

/-- `now.replace(hour=6, minute=0, second=0, microsecond=0)` as a UTC
instant (scheduler line 302): 06:00 local on now's local date. -/
def sixToday (now : ℤ) : ℤ := fromLocalNaive (86400 * localDate now + 21600)

/-! ## Store model

A row of the `rolls` table.  Rows are only ever inserted (never updated
or deleted), so the table is a list of rows in insertion order. -/

structure Roll where
  user_id : ℤ
  username : String
  value : ℤ
  rolled_at : ℤ
  actor_type : String
deriving DecidableEq

/-- A row of the `users` table: `(user_id, username, updated_at)`. -/
structure UserRow where
  user_id : ℤ
  username : String
  updated_at : ℤ
deriving DecidableEq

/-- `upsert_user` (lines 56-69): insert, or update username and
updated_at on conflict of the `user_id` key. -/
def upsert_user (users : List UserRow) (uid : ℤ) (uname : String) (now : ℤ) :
    List UserRow :=
  if users.any (fun u => u.user_id == uid) then
    users.map (fun u => if u.user_id == uid then ⟨uid, uname, now⟩ else u)
  else
    users ++ [⟨uid, uname, now⟩]

/-! ## SQL query embeddings

SQLite's `x BETWEEN a AND b` is the closed interval `a ≤ x ≤ b`. -/

def sqlBetween (x lo hi : ℤ) : Bool := decide (lo ≤ x) && decide (x ≤ hi)

/-- Row filter of the `bot_rolled_today` query (lines 44-54):
`actor_type='bot' AND rolled_at BETWEEN start AND end`. -/
def botTodayFilter (s e : ℤ) (r : Roll) : Bool :=
  r.actor_type == "bot" && sqlBetween r.rolled_at s e

/-- `bot_rolled_today()` (lines 44-54): does any bot-actor row fall in
today's range (inclusive `BETWEEN` bounds)? -/
def bot_rolled_today (rolls : List Roll) (now : ℤ) : Bool :=
  rolls.any (botTodayFilter (today_range now).1 (today_range now).2)

/-- An optional window: `none` for the unbounded all-time queries,
`some (start, end)` for the period queries. -/
def inWindow (w : Option (ℤ × ℤ)) (ts : ℤ) : Bool :=
  match w with
  | none => true
  | some (s, e) => sqlBetween ts s e

/-- Row filter shared by the per-user aggregates of `get_user_stats`
(lines 83-131, `w = none`) and `get_period_stats` (lines 202-235,
`w = some (start, end)`): the caller's rows with `actor_type='user'`,
restricted to the window by `rolled_at BETWEEN start AND end`. -/
def userRowsIn (rolls : List Roll) (w : Option (ℤ × ℤ)) (uid : ℤ) : List Roll :=
  rolls.filter (fun r => r.user_id == uid && r.actor_type == "user" && inWindow w r.rolled_at)

/-- The distinct `user_id`s produced by `GROUP BY user_id` over
user-actor rows in the window (first-occurrence order). -/
def usersIn (rolls : List Roll) (w : Option (ℤ × ℤ)) : List ℤ :=
  ((rolls.filter (fun r => r.actor_type == "user" && inWindow w r.rolled_at)).map
    (fun r => r.user_id)).dedup

/-- `SUM(value)` over a (nonempty) group. -/
def scoreIn (rolls : List Roll) (w : Option (ℤ × ℤ)) (uid : ℤ) : ℤ :=
  ((userRowsIn rolls w uid).map (fun r => r.value)).sum

/-- `SELECT SUM(value) ...` as a scalar subquery: SQL `SUM` over zero
rows is `NULL`, embedded as `none`. -/
def scoreOptIn (rolls : List Roll) (w : Option (ℤ × ℤ)) (uid : ℤ) : Option ℤ :=
  match userRowsIn rolls w uid with
  | [] => none
  | l => some ((l.map (fun r => r.value)).sum)

/-- SQL comparison `x > y` where `y` may be `NULL`: `NULL` compares as
not-true, so the `WHERE` clause drops the row. -/
def sqlGtOpt (x : ℤ) (y : Option ℤ) : Bool :=
  match y with
  | none => false
  | some v => decide (v < x)

/-- The rank subquery of `get_user_stats` (lines 114-131, `w = none`)
and of `get_period_stats` (lines 212-228, `w = some (start, end)`):
`COUNT(*) + 1` over the groups whose `SUM(value)` is strictly greater
than the caller's (possibly `NULL`) sum. -/
def rankIn (rolls : List Roll) (w : Option (ℤ × ℤ)) (uid : ℤ) : ℕ :=
  1 + ((usersIn rolls w).filter
    (fun v => sqlGtOpt (scoreIn rolls w v) (scoreOptIn rolls w uid))).length

/-- The set of distinct participants with at least one user-actor draw
in the window (independent restatement of the claims' "distinct
participants"). -/
def participantsIn (rolls : List Roll) (w : Option (ℤ × ℤ)) : Finset ℤ :=
  ((rolls.filter (fun r => r.actor_type == "user" && inWindow w r.rolled_at)).map
    (fun r => r.user_id)).toFinset

/-! ## Leaderboards (lines 564-815) -/

/-- `actor_filter` (lines 627-628): `IN ('user','bot')` for the `today`
period, `= 'user'` otherwise (the all-time branch also uses it with
`include_bot = False`). -/
def lbActorOk (period : String) (a : String) : Bool :=
  if period == "today" then a == "user" || a == "bot" else a == "user"

/-- Rows scanned by the leaderboard queries (lines 668-725): window
restriction (`rolled_at BETWEEN start AND end`, absent for `alltime`)
plus the actor filter. -/
def lbFiltered (period : String) (rolls : List Roll) (w : Option (ℤ × ℤ)) : List Roll :=
  rolls.filter (fun r => inWindow w r.rolled_at && lbActorOk period r.actor_type)

/-- Values of one `GROUP BY user_id` group. -/
def lbVals (period : String) (rolls : List Roll) (w : Option (ℤ × ℤ)) (uid : ℤ) : List ℤ :=
  ((lbFiltered period rolls w).filter (fun r => r.user_id == uid)).map (fun r => r.value)

/-- SQL `MAX` over a group (groups are nonempty; `0` is a dummy for the
empty list, never reached by a generated group). -/
def listMax : List ℤ → ℤ
  | [] => 0
  | x :: t => t.foldl max x

/-- The chosen aggregate (lines 672-679 and 696-718): `MAX(r.value)`
for `today`, `SUM(r.value)` for every other period. -/
def lbAgg (period : String) (vals : List ℤ) : ℤ :=
  if period == "today" then listMax vals else vals.sum

/-- Aggregate score of one participant in the leaderboard queries. -/
def lbScoreOf (period : String) (rolls : List Roll) (w : Option (ℤ × ℤ)) (uid : ℤ) : ℤ :=
  lbAgg period (lbVals period rolls w uid)

/-- The grouped rows `(user_id, aggregate)` in group (first-occurrence)
order, before `ORDER BY`. -/
def lbGroups (period : String) (rolls : List Roll) (w : Option (ℤ × ℤ)) : List (ℤ × ℤ) :=
  (((lbFiltered period rolls w).map (fun r => r.user_id)).dedup).map
    (fun uid => (uid, lbScoreOf period rolls w uid))

/-- `ORDER BY <aggregate> DESC` as a relation on `(user_id, score)`
rows; the order among equal scores is implementation-defined in SQLite,
so any fixed sort of the grouped rows is a faithful model. -/
def scoreDesc (p q : ℤ × ℤ) : Prop := q.2 ≤ p.2

instance : DecidableRel scoreDesc := fun p q => by unfold scoreDesc; infer_instance

instance : IsTotal (ℤ × ℤ) scoreDesc := ⟨fun a b => le_total b.2 a.2⟩

instance : IsTrans (ℤ × ℤ) scoreDesc := ⟨fun _ _ _ h1 h2 => le_trans h2 h1⟩

/-- The full ranking query result (lines 682-688 and 711-718): grouped
rows ordered by aggregate descending. -/
def lbRanking (period : String) (rolls : List Roll) (w : Option (ℤ × ℤ)) : List (ℤ × ℤ) :=
  List.insertionSort scoreDesc (lbGroups period rolls w)

/-- 1-based position of `uid` in a ranking list: the
`for index, (uid, score) in enumerate(ranking, start=1)` scan of
lines 781-785, stopping at the first match. -/
def posIn (ranking : List (ℤ × ℤ)) (uid : ℤ) : Option ℕ :=
  match ranking with
  | [] => none
  | q :: t => if q.1 == uid then some 1 else (posIn t uid).map (fun k => k + 1)

/-- `user_rank` as computed by the leaderboard command (lines 778-785). -/
def lbUserRank (period : String) (rolls : List Roll) (w : Option (ℤ × ℤ)) (uid : ℤ) :
    Option ℕ :=
  posIn (lbRanking period rolls w) uid

/-- `top_ids` (line 787): the participants of the visible `LIMIT 10`
slice; the own-position field is shown only for a participant outside
this slice (line 789). -/
def lbTopIds (period : String) (rolls : List Roll) (w : Option (ℤ × ℤ)) : List ℤ :=
  ((lbRanking period rolls w).take 10).map Prod.fst

/-! ## Streak calculator (`calculate_streaks`, lines 142-200) -/

/-- The distinct local calendar dates of the caller's user-actor rows,
sorted ascending: the `set()` of `datetime.fromtimestamp(ts, TZ).date()`
values followed by `sorted(dates)` (lines 149-167). -/
def datesOf (rolls : List Roll) (uid : ℤ) : List ℤ :=
  List.insertionSort (fun a b => a ≤ b)
    (((rolls.filter (fun r => r.user_id == uid && r.actor_type == "user")).map
      (fun r => localDate r.rolled_at)).dedup)

/-- One step of the best-streak fold (lines 173-182): state is
`(best, current_run, prev_date)`. -/
def streakStep (st : ℕ × ℕ × Option ℤ) (d : ℤ) : ℕ × ℕ × Option ℤ :=
  let run :=
    match st.2.2 with
    | none => 1
    | some p => if d = p + 1 then st.2.1 + 1 else 1
  (max st.1 run, run, some d)

/-- `best` after folding the sorted date list (lines 169-182). -/
def bestOf (dates : List ℤ) : ℕ :=
  (dates.foldl streakStep (0, 0, none)).1

/-- The backward `while True` walk of lines 190-198, made structural by
fuel; `dates.length` fuel is enough because each counted step consumes a
distinct member of `dates`. -/
def walkBack (dates : List ℤ) : ℕ → ℤ → ℕ
  | 0, _ => 0
  | fuel + 1, d => if (d - 1) ∈ dates then 1 + walkBack dates fuel (d - 1) else 0

/-- `current` (lines 184-198): 0 when today is not among the dates,
otherwise 1 plus the backward walk from today. -/
def currentOf (dates : List ℤ) (today : ℤ) : ℕ :=
  if today ∈ dates then 1 + walkBack dates dates.length today else 0

/-- `calculate_streaks(user_id)` (lines 142-200), returning
`(current_streak, best_streak)`; `today` is `datetime.now(TZ).date()`. -/
def calculate_streaks (rolls : List Roll) (uid : ℤ) (now : ℤ) : ℕ × ℕ :=
  if (rolls.filter (fun r => r.user_id == uid && r.actor_type == "user")).isEmpty then
    (0, 0)
  else
    (currentOf (datesOf rolls uid) (localDate now), bestOf (datesOf rolls uid))

/-! ### Specification-side streak notions

These two definitions follow the spec's words ("longest run of dates
that are consecutive calendar days", "walking backward one calendar day
at a time from today") and are compared with the embedded code. -/

/-- Any backward-consecutive run has at most `dates.length` members. -/
theorem run_card_le (dates : List ℤ) (d : ℤ) (k : ℕ)
    (h : ∀ j : ℕ, j < k → (d - (j : ℤ)) ∈ dates) : k ≤ dates.length := by
  classical
  have hsub : (Finset.range k).image (fun j : ℕ => d - (j : ℤ)) ⊆ dates.toFinset := by
    intro x hx
    simp only [Finset.mem_image, Finset.mem_range] at hx
    obtain ⟨j, hj, rfl⟩ := hx
    simpa using h j hj
  have hinj : Function.Injective (fun j : ℕ => d - (j : ℤ)) := by
    intro a b hab
    simp only at hab
    omega
  have hcard := Finset.card_le_card hsub
  rw [Finset.card_image_of_injective _ hinj, Finset.card_range] at hcard
  calc k ≤ dates.toFinset.card := hcard
    _ ≤ dates.length := dates.toFinset_card_le

/-- Some backward step from `d` eventually leaves `dates`. -/
theorem exists_gap (dates : List ℤ) (d : ℤ) : ∃ k : ℕ, (d - (k : ℤ)) ∉ dates := by
  by_contra hall
  push_neg at hall
  have := run_card_le dates d (dates.length + 1) (fun j _ => hall j)
  omega

/-- Length of the run of consecutive dates ending at `d` that are all
present: the least `k` with `d - k` absent, so `d, d-1, …, d-(k-1)` are
all present and `d - k` is not.  Modelled from the spec's notion of a
"run of dates that are consecutive calendar days". -/
def runEnd (dates : List ℤ) (d : ℤ) : ℕ := Nat.find (exists_gap dates d)

/-- Spec-side best streak: the length of the longest consecutive run,
as the maximum over all members of the run ending there. -/
def specBest (dates : List ℤ) : ℕ :=
  (dates.map (runEnd dates)).foldl max 0

/-- Spec-side current streak: 0 when today is absent, otherwise the run
ending at today (1 plus the immediately preceding consecutive days). -/
def specCurrent (dates : List ℤ) (today : ℤ) : ℕ :=
  if today ∈ dates then runEnd dates today else 0

/-! ## Scheduler loop body (`bot_daily_roll`, lines 285-354) -/

/-- What one iteration of the `while not bot.is_closed()` loop does.
`sleepUntilNext wake` covers the two `continue` branches that sleep to
the next day's 05:55 (lines 291-299); `recheckAbort` is the post-sleep
`continue` of lines 308-309; `draw` is the insert of line 312 followed
by the fan-out of lines 314-354. -/
inductive IterOutcome where
  | sleepUntilNext (wake : ℤ)
  | recheckAbort
  | draw (value : ℤ) (at_ts : ℤ)
deriving DecidableEq

/-- The UTC instant at which the post-delay re-check (line 308) and the
insert (line 312) happen: after the optional sleep to 06:00 local and
the randomized delay. -/
def recheckTime (now delay : ℤ) : ℤ :=
  (if hourOf now < 6 then sixToday now else now) + delay

/-- One iteration of the scheduler loop body.  `rollsFirst` is the
table contents at the first `bot_rolled_today()` check (line 291),
`rollsSecond` at the re-check after the randomized sleep (line 308);
`value` is the `secrets.randbelow(100) + 1` outcome. -/
def loopIter (rollsFirst : List Roll) (now delay : ℤ) (rollsSecond : List Roll)
    (value : ℤ) : IterOutcome :=
  if bot_rolled_today rollsFirst now then .sleepUntilNext (tomorrow555 now)
  else if 10 ≤ hourOf now then .sleepUntilNext (tomorrow555 now)
  else if bot_rolled_today rollsSecond (recheckTime now delay) then .recheckAbort
  else .draw value (recheckTime now delay)

/-- Rows inserted by an iteration outcome (`insert_roll(0, BOT_NAME,
value, "bot")`, line 312). -/
def iterInserts : IterOutcome → List Roll
  | .draw v t => [⟨0, "RollF", v, t, "bot"⟩]
  | _ => []

/-- Whether the iteration reaches the delivery fan-out (lines 314-354):
only a `draw` outcome announces anything. -/
def iterDelivers : IterOutcome → Bool
  | .draw _ _ => true
  | _ => false

/-- Run the loop body repeatedly, threading the `rolls` table: each
entry of `iters` is `(now, delay, value)` for one iteration (no
concurrent writers, so both checks of an iteration see the same table).
Returns the final table and the number of draws performed. -/
def runIters (rolls : List Roll) : List (ℤ × ℤ × ℤ) → List Roll × ℕ
  | [] => (rolls, 0)
  | (now, delay, v) :: rest =>
    let o := loopIter rolls now delay rolls v
    let next := runIters (rolls ++ iterInserts o) rest
    (next.1, next.2 + (if iterDelivers o then 1 else 0))

/-! ## The `/roll` command (lines 489-562) -/

/-- Result reported to the caller. -/
inductive RollOutcome where
  | already (value : ℤ) (remaining : ℤ)
  | rolled (value : ℤ)
deriving DecidableEq

/-- Durable store state touched by `/roll`. -/
structure Store where
  rolls : List Roll
  users : List UserRow
deriving DecidableEq

/-- `/roll` (lines 489-562): if the caller already has a user-actor row
in today's range, report its value and the clamped time to local
midnight and leave the store unchanged; otherwise upsert the profile
and insert the new roll.  (The cosmetic animation of lines 533-556
touches no store state and is omitted.) -/
def roll_cmd (st : Store) (now uid : ℤ) (uname : String) (value : ℤ) :
    RollOutcome × Store :=
  match st.rolls.find? (fun r =>
      r.user_id == uid && r.actor_type == "user" &&
      sqlBetween r.rolled_at (today_range now).1 (today_range now).2) with
  | some r =>
    (.already r.value (max 0 ((today_range now).2 - now)), st)
  | none =>
    (.rolled value,
      ⟨st.rolls ++ [⟨uid, uname, value, now, "user"⟩],
       upsert_user st.users uid uname now⟩)

/-! ## Delivery fan-out (lines 319-354)

Per destination the code resolves the channel from cache
(`bot.get_channel`) or the API (`await bot.fetch_channel`) and then
sends; each API call's outcome is an input to the model. -/

/-- Outcome of resolving the destination channel. -/
inductive Resolve where
  | cachedOk
  | fetchOk
  | fetchNotFound
  | fetchForbidden
  | fetchHttpError
deriving DecidableEq

/-- Outcome of `channel.send` (when reached). -/
inductive SendRes where
  | sendOk
  | sendForbidden
  | sendHttpError
deriving DecidableEq

/-- Environment behaviour for one destination: how resolution goes, how
the send goes, and whether the best-effort owner notice itself fails. -/
structure DestEnv where
  resolve : Resolve
  send : SendRes
  noticeFails : Bool
deriving DecidableEq

/-- What handling one destination amounts to. -/
inductive DestResult where
  | delivered
  | skippedNotFound
  | skippedTransientResolve
  | forbiddenNoticed
  | uncaught
deriving DecidableEq

/-- One pass of the `for guild_id, channel_id in rows` body
(lines 319-354), mirroring its `try`/`except` structure.  Only
`discord.Forbidden` is caught around `channel.send` (line 345), so a
transient `discord.HTTPException` raised by the send escapes the loop.
The owner notice is wrapped in `except Exception: pass`, so its own
failure (`noticeFails`) changes nothing. -/
def handleDest (env : DestEnv) : DestResult :=
  match env.resolve with
  | .fetchNotFound => .skippedNotFound
  | .fetchForbidden => .forbiddenNoticed
  | .fetchHttpError => .skippedTransientResolve
  | .cachedOk | .fetchOk =>
    match env.send with
    | .sendOk => .delivered
    | .sendForbidden => .forbiddenNoticed
    | .sendHttpError => .uncaught

/-- The fan-out over all configured destinations.  An uncaught
exception aborts the loop (and propagates out of `bot_daily_roll`):
the boolean records whether that happened. -/
def fanOut : List DestEnv → List DestResult × Bool
  | [] => ([], false)
  | env :: rest =>
    let r := handleDest env
    if r = .uncaught then ([r], true)
    else
      let next := fanOut rest
      (r :: next.1, next.2)

/-! ## Concrete data used by witnesses and counterexamples -/

/-- Four user draws on local dates 0, 1, 2 and 4 (date 3 missing): the
spec's streak example `{D, D+1, D+2, D+4}` with `D = 0`. -/
def exampleRolls : List Roll :=
  [⟨1, "u", 10, 0, "user"⟩, ⟨1, "u", 20, 86400, "user"⟩,
   ⟨1, "u", 30, 172800, "user"⟩, ⟨1, "u", 40, 345600, "user"⟩]

/-- A store that already holds today's system draw (timestamp 30000 is
inside day 0's window). -/
def c1Rolls : List Roll := [⟨0, "RollF", 50, 30000, "bot"⟩]

/-- Twelve participants: ten distinct scores 190..100, then two
participants (11 and 12) tied at 50. -/
def c3Rolls : List Roll :=
  [⟨1, "u", 190, 1, "user"⟩, ⟨2, "u", 180, 2, "user"⟩, ⟨3, "u", 170, 3, "user"⟩,
   ⟨4, "u", 160, 4, "user"⟩, ⟨5, "u", 150, 5, "user"⟩, ⟨6, "u", 140, 6, "user"⟩,
   ⟨7, "u", 130, 7, "user"⟩, ⟨8, "u", 120, 8, "user"⟩, ⟨9, "u", 110, 9, "user"⟩,
   ⟨10, "u", 100, 10, "user"⟩, ⟨11, "u", 50, 11, "user"⟩, ⟨12, "u", 50, 12, "user"⟩]

/-- One user draw and the system's own draw, both inside the window
`(0, 100)`. -/
def c4Rolls : List Roll :=
  [⟨1, "u", 10, 5, "user"⟩, ⟨0, "RollF", 99, 6, "bot"⟩]

/-- A store holding one user draw of value 42 at timestamp 1000 (inside
day 0's window). -/
def c8Store : Store := ⟨[⟨1, "alice", 42, 1000, "user"⟩], []⟩

/-! ## Lemmas about the streak calculator -/

theorem runEnd_eq_iff {dates : List ℤ} {d : ℤ} {k : ℕ} :
    runEnd dates d = k ↔
      (d - (k : ℤ)) ∉ dates ∧ ∀ j : ℕ, j < k → (d - (j : ℤ)) ∈ dates := by
  rw [runEnd, Nat.find_eq_iff]
  constructor
  · rintro ⟨h1, h2⟩
    exact ⟨h1, fun j hj => not_not.mp (h2 j hj)⟩
  · rintro ⟨h1, h2⟩
    exact ⟨h1, fun j hj => not_not_intro (h2 j hj)⟩

theorem runEnd_eq_zero {dates : List ℤ} {d : ℤ} (h : d ∉ dates) :
    runEnd dates d = 0 := by
  rw [runEnd_eq_iff]
  refine ⟨by simpa using h, by omega⟩

theorem runEnd_succ {dates : List ℤ} {d : ℤ} (h : d ∈ dates) :
    runEnd dates d = runEnd dates (d - 1) + 1 := by
  rw [runEnd_eq_iff]
  constructor
  · have hs := Nat.find_spec (exists_gap dates (d - 1))
    have : d - ((runEnd dates (d - 1) : ℤ) + 1) = d - 1 - (runEnd dates (d - 1) : ℤ) := by
      ring
    rw [show ((runEnd dates (d - 1) + 1 : ℕ) : ℤ) = (runEnd dates (d - 1) : ℤ) + 1 by
      push_cast; ring, this]
    exact hs
  · intro j hj
    match j with
    | 0 => simpa using h
    | i + 1 =>
      have hi : i < runEnd dates (d - 1) := by omega
      have := Nat.find_min (exists_gap dates (d - 1)) hi
      have hmem : (d - 1 - (i : ℤ)) ∈ dates := not_not.mp this
      have : d - ((i + 1 : ℕ) : ℤ) = d - 1 - (i : ℤ) := by push_cast; ring
      rwa [this]

theorem runEnd_le_length (dates : List ℤ) (d : ℤ) :
    runEnd dates d ≤ dates.length := by
  refine run_card_le dates d (runEnd dates d) (fun j hj => ?_)
  exact not_not.mp (Nat.find_min (exists_gap dates d) hj)

theorem runEnd_congr {l₁ l₂ : List ℤ} {d : ℤ}
    (h : ∀ y : ℤ, y ≤ d → (y ∈ l₁ ↔ y ∈ l₂)) :
    runEnd l₁ d = runEnd l₂ d := by
  rw [runEnd_eq_iff]
  constructor
  · have hs := Nat.find_spec (exists_gap l₂ d)
    intro hmem
    exact hs ((h _ (by omega)).mp hmem)
  · intro j hj
    have := not_not.mp (Nat.find_min (exists_gap l₂ d) hj)
    exact (h _ (by omega)).mpr this

theorem walkBack_eq {dates : List ℤ} :
    ∀ (fuel : ℕ) (d : ℤ), runEnd dates (d - 1) ≤ fuel →
      walkBack dates fuel d = runEnd dates (d - 1) := by
  intro fuel
  induction fuel with
  | zero => intro d h; simpa [walkBack] using by omega
  | succ n ih =>
    intro d h
    by_cases hmem : (d - 1) ∈ dates
    · rw [walkBack, if_pos hmem]
      have hsucc := runEnd_succ hmem
      have : runEnd dates (d - 1 - 1) ≤ n := by omega
      rw [ih (d - 1) this]
      omega
    · rw [walkBack, if_neg hmem, runEnd_eq_zero hmem]

theorem currentOf_eq_specCurrent (dates : List ℤ) (today : ℤ) :
    currentOf dates today = specCurrent dates today := by
  unfold currentOf specCurrent
  by_cases h : today ∈ dates
  · rw [if_pos h, if_pos h]
    have hle : runEnd dates (today - 1) ≤ dates.length := runEnd_le_length dates (today - 1)
    rw [walkBack_eq dates.length today hle, runEnd_succ h]
    omega
  · rw [if_neg h, if_neg h]

theorem base_le_foldl_max {α : Type} [LinearOrder α] (L : List α) (a : α) :
    a ≤ L.foldl max a := by
  induction L generalizing a with
  | nil => simp
  | cons x t ih => exact le_trans (le_max_left a x) (ih (max a x))

theorem mem_le_foldl_max {α : Type} [LinearOrder α] (L : List α) (a : α) {x : α}
    (hx : x ∈ L) : x ≤ L.foldl max a := by
  induction L generalizing a with
  | nil => cases hx
  | cons y t ih =>
    rcases List.mem_cons.mp hx with rfl | hmem
    · exact le_trans (le_max_right a x) (base_le_foldl_max t (max a x))
    · exact ih (max a y) hmem

theorem foldl_max_mem {α : Type} [LinearOrder α] (L : List α) (a : α) :
    L.foldl max a = a ∨ L.foldl max a ∈ L := by
  induction L generalizing a with
  | nil => exact Or.inl rfl
  | cons y t ih =>
    rcases ih (max a y) with h | h
    · rcases max_choice a y with hm | hm
      · exact Or.inl (by rw [List.foldl_cons, h, hm])
      · exact Or.inr (by rw [List.foldl_cons, h, hm]; exact List.mem_cons_self y t)
    · exact Or.inr (List.mem_cons_of_mem y h)

theorem foldl_max_concat {α : Type} [LinearOrder α] (L : List α) (a v : α) :
    (L ++ [v]).foldl max a = max (L.foldl max a) v := by
  rw [List.foldl_append]
  rfl

/-- The run ending at the last element of the processed prefix; 0 for
the empty prefix. -/
def lastRun (dates : List ℤ) : ℕ :=
  match dates.getLast? with
  | none => 0
  | some d => runEnd dates d

theorem sorted_lt_mem_le_getLast {l : List ℤ} {p : ℤ}
    (hs : l.Sorted (· < ·)) (hl : l.getLast? = some p) {x : ℤ} (hx : x ∈ l) :
    x ≤ p := by
  induction l using List.reverseRecOn with
  | nil => simp at hl
  | append_singleton l0 a _ =>
    rw [List.getLast?_concat] at hl
    obtain rfl : a = p := by simpa using hl
    rcases List.mem_append.mp hx with hx0 | hxa
    · exact le_of_lt ((List.pairwise_append.mp hs).2.2 x hx0 _ (by simp))
    · simp only [List.mem_singleton] at hxa
      omega

theorem runEnd_append_lt {l : List ℤ} {a x : ℤ} (hx : x < a) :
    runEnd (l ++ [a]) x = runEnd l x := by
  refine runEnd_congr (fun y hy => ?_)
  simp only [List.mem_append, List.mem_singleton]
  constructor
  · rintro (h | rfl)
    · exact h
    · omega
  · exact fun h => Or.inl h

theorem runEnd_singleton_self (a : ℤ) : runEnd [a] a = 1 := by
  rw [runEnd_eq_iff]
  constructor
  · simp only [List.mem_singleton]
    omega
  · intro j hj
    have : j = 0 := by omega
    subst this
    simp

/-- Invariant of the best-streak fold over a strictly sorted date list:
the state is the best streak so far, the run ending at the last
processed date, and that date. -/
theorem streak_fold_inv {l : List ℤ} (hs : l.Sorted (· < ·)) :
    l.foldl streakStep (0, 0, none) = (specBest l, lastRun l, l.getLast?) := by
  induction l using List.reverseRecOn with
  | nil => simp [specBest, lastRun]
  | append_singleton l0 a ih =>
    have hsplit := List.pairwise_append.mp hs
    have hs0 : l0.Sorted (· < ·) := hsplit.1
    have hlt : ∀ x ∈ l0, x < a := fun x hx => hsplit.2.2 x hx a (by simp)
    have hfold : (l0 ++ [a]).foldl streakStep (0, 0, none) =
        streakStep (l0.foldl streakStep (0, 0, none)) a := by
      rw [List.foldl_append]
      rfl
    have hself : a ∈ l0 ++ [a] := by simp
    have hRa : runEnd (l0 ++ [a]) a = runEnd l0 (a - 1) + 1 := by
      rw [runEnd_succ hself, runEnd_append_lt (by omega)]
    have hmapeq : l0.map (runEnd (l0 ++ [a])) = l0.map (runEnd l0) :=
      List.map_congr_left (fun x hx => runEnd_append_lt (hlt x hx))
    have hbest : specBest (l0 ++ [a]) = max (specBest l0) (runEnd (l0 ++ [a]) a) := by
      unfold specBest
      rw [List.map_append, List.map_singleton, hmapeq, foldl_max_concat]
    have hlast : lastRun (l0 ++ [a]) = runEnd (l0 ++ [a]) a := by
      unfold lastRun
      rw [List.getLast?_concat]
    by_cases h0 : l0 = []
    · subst h0
      simp only [List.nil_append] at hbest hlast ⊢
      rw [hbest, hlast]
      simp [streakStep, specBest, lastRun, runEnd_singleton_self]
    · have hp : l0.getLast? = some (l0.getLast h0) := List.getLast?_eq_getLast l0 h0
      set p := l0.getLast h0 with hpdef
      have hpmem : p ∈ l0 := List.getLast_mem h0
      have hpa : p < a := hlt p hpmem
      rw [hfold, ih hs0, hp]
      have hrun : runEnd (l0 ++ [a]) a =
          (if a = p + 1 then runEnd l0 p + 1 else 1) := by
        by_cases hcase : a = p + 1
        · rw [if_pos hcase, hRa, hcase]
          norm_num
        · rw [if_neg hcase, hRa]
          have hnot : (a - 1) ∉ l0 := by
            intro hmem
            have h1 : a - 1 ≤ p := sorted_lt_mem_le_getLast hs0 hp hmem
            omega
          rw [runEnd_eq_zero hnot]
      rw [List.getLast?_concat, hbest, hlast, hrun]
      simp only [streakStep, lastRun, hp]

theorem bestOf_eq_specBest {l : List ℤ} (hs : l.Sorted (· < ·)) :
    bestOf l = specBest l := by
  unfold bestOf
  rw [streak_fold_inv hs]

theorem datesOf_sorted (rolls : List Roll) (uid : ℤ) :
    (datesOf rolls uid).Sorted (· < ·) := by
  unfold datesOf
  set base := (((rolls.filter (fun r => r.user_id == uid && r.actor_type == "user")).map
      (fun r => localDate r.rolled_at)).dedup) with hbase
  have hle : (List.insertionSort (fun a b => a ≤ b) base).Sorted (fun a b => a ≤ b) :=
    List.sorted_insertionSort (fun a b => a ≤ b) base
  have hnodup : (List.insertionSort (fun a b => a ≤ b) base).Nodup :=
    (List.perm_insertionSort (fun a b => a ≤ b) base).symm.nodup (List.nodup_dedup _)
  exact List.Sorted.lt_of_le hle hnodup

/-- The streak calculation computes exactly the spec-side pair. -/
theorem calculate_streaks_eq (rolls : List Roll) (uid now : ℤ) :
    calculate_streaks rolls uid now =
      (specCurrent (datesOf rolls uid) (localDate now), specBest (datesOf rolls uid)) := by
  unfold calculate_streaks
  by_cases h : (rolls.filter (fun r => r.user_id == uid && r.actor_type == "user")).isEmpty
  · rw [if_pos h]
    have hd : datesOf rolls uid = [] := by
      unfold datesOf
      rw [List.isEmpty_iff] at h
      rw [h]
      rfl
    rw [hd]
    simp [specCurrent, specBest]
  · rw [if_neg h, currentOf_eq_specCurrent, bestOf_eq_specBest (datesOf_sorted rolls uid)]

theorem specCurrent_le_specBest (dates : List ℤ) (today : ℤ) :
    specCurrent dates today ≤ specBest dates := by
  unfold specCurrent
  by_cases h : today ∈ dates
  · rw [if_pos h]
    exact mem_le_foldl_max _ 0 (List.mem_map_of_mem (runEnd dates) h)
  · rw [if_neg h]
    exact Nat.zero_le _

/-! ## Lemmas about windows, the scheduler and the leaderboard -/

theorem today_range_congr {t now : ℤ} (h : localDate t = localDate now) :
    today_range t = today_range now := by
  unfold today_range
  rw [h]

theorem bot_rolled_today_congr (rolls : List Roll) {t now : ℤ}
    (h : localDate t = localDate now) :
    bot_rolled_today rolls t = bot_rolled_today rolls now := by
  unfold bot_rolled_today
  rw [today_range_congr h]

theorem listMax_mem {l : List ℤ} (h : l ≠ []) : listMax l ∈ l := by
  match l with
  | [] => exact absurd rfl h
  | x :: t =>
    rw [listMax]
    rcases foldl_max_mem t x with h1 | h1
    · rw [h1]; exact List.mem_cons_self x t
    · exact List.mem_cons_of_mem x h1

theorem le_listMax {l : List ℤ} {x : ℤ} (hx : x ∈ l) : x ≤ listMax l := by
  match l with
  | [] => cases hx
  | y :: t =>
    rw [listMax]
    rcases List.mem_cons.mp hx with rfl | hmem
    · exact base_le_foldl_max t x
    · exact mem_le_foldl_max t y hmem

theorem mem_participantsIn_iff (rolls : List Roll) (w : Option (ℤ × ℤ)) (uid : ℤ) :
    uid ∈ participantsIn rolls w ↔ userRowsIn rolls w uid ≠ [] := by
  unfold participantsIn userRowsIn
  rw [List.mem_toFinset]
  constructor
  · intro h
    simp only [List.mem_map, List.mem_filter, Bool.and_eq_true, beq_iff_eq] at h
    obtain ⟨r, ⟨hr, ha, hw⟩, hid⟩ := h
    have : r ∈ rolls.filter (fun r =>
        r.user_id == uid && r.actor_type == "user" && inWindow w r.rolled_at) := by
      simp only [List.mem_filter, Bool.and_eq_true, beq_iff_eq]
      exact ⟨hr, ⟨hid, ha⟩, hw⟩
    exact List.ne_nil_of_mem this
  · intro h
    obtain ⟨r, hr⟩ := List.exists_mem_of_ne_nil _ h
    simp only [List.mem_filter, Bool.and_eq_true, beq_iff_eq] at hr
    obtain ⟨hmem, ⟨hid, ha⟩, hw⟩ := hr
    simp only [List.mem_map, List.mem_filter, Bool.and_eq_true, beq_iff_eq]
    exact ⟨r, ⟨hmem, ha, hw⟩, hid⟩

theorem scoreOptIn_of_ne_nil {rolls : List Roll} {w : Option (ℤ × ℤ)} {uid : ℤ}
    (h : userRowsIn rolls w uid ≠ []) :
    scoreOptIn rolls w uid = some (scoreIn rolls w uid) := by
  unfold scoreOptIn scoreIn
  match hrows : userRowsIn rolls w uid with
  | [] => exact absurd hrows h
  | r :: t => rfl

theorem scoreOptIn_of_nil {rolls : List Roll} {w : Option (ℤ × ℤ)} {uid : ℤ}
    (h : userRowsIn rolls w uid = []) : scoreOptIn rolls w uid = none := by
  unfold scoreOptIn
  rw [h]

/-- The stats-query rank of a participant with a draw in the window is
one plus the number of distinct participants with strictly greater sum. -/
theorem rankIn_eq_of_mem (rolls : List Roll) (w : Option (ℤ × ℤ)) (uid : ℤ)
    (h : uid ∈ participantsIn rolls w) :
    rankIn rolls w uid =
      1 + ((participantsIn rolls w).filter
        (fun v => scoreIn rolls w uid < scoreIn rolls w v)).card := by
  have hopt := scoreOptIn_of_ne_nil ((mem_participantsIn_iff rolls w uid).mp h)
  unfold rankIn
  congr 1
  have hpred : ∀ v : ℤ,
      (sqlGtOpt (scoreIn rolls w v) (scoreOptIn rolls w uid)) =
        decide (scoreIn rolls w uid < scoreIn rolls w v) := by
    intro v
    rw [hopt]
    rfl
  rw [List.filter_congr (fun v _ => hpred v)]
  have hnodup : ((usersIn rolls w).filter
      (fun v => decide (scoreIn rolls w uid < scoreIn rolls w v))).Nodup :=
    (List.nodup_dedup _).filter _
  rw [← List.toFinset_card_of_nodup hnodup, List.toFinset_filter]
  congr 1
  ext x
  unfold usersIn participantsIn
  simp [List.mem_dedup]

theorem rankIn_eq_one_of_not_mem (rolls : List Roll) (w : Option (ℤ × ℤ)) (uid : ℤ)
    (h : uid ∉ participantsIn rolls w) : rankIn rolls w uid = 1 := by
  have hnil : userRowsIn rolls w uid = [] := by
    by_contra hne
    exact h ((mem_participantsIn_iff rolls w uid).mpr hne)
  unfold rankIn
  rw [scoreOptIn_of_nil hnil]
  have : ∀ v ∈ usersIn rolls w, (sqlGtOpt (scoreIn rolls w v) none) = false :=
    fun v _ => rfl
  rw [List.filter_congr this]
  simp

theorem lbRanking_sorted (period : String) (rolls : List Roll) (w : Option (ℤ × ℤ)) :
    (lbRanking period rolls w).Sorted scoreDesc :=
  List.sorted_insertionSort scoreDesc (lbGroups period rolls w)

theorem lbGroups_fst (period : String) (rolls : List Roll) (w : Option (ℤ × ℤ)) :
    (lbGroups period rolls w).map Prod.fst =
      ((lbFiltered period rolls w).map (fun r => r.user_id)).dedup := by
  unfold lbGroups
  rw [List.map_map]
  exact List.map_id _

theorem lbRanking_fst_nodup (period : String) (rolls : List Roll) (w : Option (ℤ × ℤ)) :
    ((lbRanking period rolls w).map Prod.fst).Nodup := by
  have hperm := (List.perm_insertionSort scoreDesc (lbGroups period rolls w)).map Prod.fst
  have hnd : ((lbGroups period rolls w).map Prod.fst).Nodup := by
    rw [lbGroups_fst]
    exact List.nodup_dedup _
  exact hperm.symm.nodup hnd

/-- In a score-descending list with pairwise distinct scores and
pairwise distinct participants, the 1-based position of a participant
equals one plus the number of rows with strictly greater score. -/
theorem pos_eq_count {L : List (ℤ × ℤ)} (hsort : L.Sorted scoreDesc)
    (hnds : (L.map Prod.snd).Nodup) (hndu : (L.map Prod.fst).Nodup)
    {uid s : ℤ} (hmem : (uid, s) ∈ L) :
    posIn L uid = some (1 + (L.filter (fun q => decide (s < q.2))).length) := by
  induction L with
  | nil => cases hmem
  | cons q t ih =>
    have hrel : ∀ x ∈ t, scoreDesc q x := (List.pairwise_cons.mp hsort).1
    have hsort2 : t.Sorted scoreDesc := (List.pairwise_cons.mp hsort).2
    simp only [List.map_cons, List.nodup_cons] at hnds hndu
    by_cases hq : q.1 = uid
    · have hqe : q = (uid, s) := by
        rcases List.mem_cons.mp hmem with heq | hmem2
        · exact heq.symm
        · exact absurd (List.mem_map_of_mem Prod.fst hmem2 : (uid, s).1 ∈ t.map Prod.fst)
            (by rw [← hq] at *; exact hndu.1)
      subst hqe
      rw [posIn, if_pos (by simp)]
      have hkill : t.filter (fun p => decide (s < p.2)) = [] := by
        rw [List.filter_eq_nil_iff]
        intro x hx
        have := hrel x hx
        unfold scoreDesc at this
        simp only [decide_eq_true_eq]
        omega
      rw [List.filter_cons, if_neg (by simp), hkill]
      rfl
    · have hmem2 : (uid, s) ∈ t := by
        rcases List.mem_cons.mp hmem with heq | hmem2
        · exact absurd (congrArg Prod.fst heq).symm hq
        · exact hmem2
      have hslt : s < q.2 := by
        have hle : scoreDesc q (uid, s) := hrel _ hmem2
        unfold scoreDesc at hle
        have hne : q.2 ≠ s := by
          intro heq
          exact hnds.1 (by rw [heq]; exact List.mem_map_of_mem Prod.snd hmem2)
        omega
      rw [posIn, if_neg (by simp only [beq_iff_eq]; exact hq), ih hsort2 hnds.2 hndu.2 hmem2]
      rw [List.filter_cons, if_pos (by simpa using hslt)]
      rw [Option.map_some', List.length_cons]
      exact congrArg some (by omega)

theorem lbFiltered_today (rolls : List Roll) (w : Option (ℤ × ℤ)) :
    lbFiltered "today" rolls w =
      rolls.filter (fun r => inWindow w r.rolled_at &&
        (r.actor_type == "user" || r.actor_type == "bot")) := rfl

theorem lbVals_today (rolls : List Roll) (w : Option (ℤ × ℤ)) (uid : ℤ) :
    lbVals "today" rolls w uid =
      (rolls.filter (fun r => r.user_id == uid &&
        (r.actor_type == "user" || r.actor_type == "bot") &&
        inWindow w r.rolled_at)).map (fun r => r.value) := by
  unfold lbVals
  rw [lbFiltered_today, List.filter_filter]
  congr 1
  apply List.filter_congr
  intro r _
  cases h1 : (r.user_id == uid) <;> cases h2 : (r.actor_type == "user") <;>
    cases h3 : (r.actor_type == "bot") <;> cases h4 : inWindow w r.rolled_at <;>
      simp [h1, h2, h3, h4]

theorem lbVals_sum_period (p : String) (hp : (p == "today") = false)
    (rolls : List Roll) (w : Option (ℤ × ℤ)) (uid : ℤ) :
    lbVals p rolls w uid =
      (rolls.filter (fun r => r.user_id == uid && r.actor_type == "user" &&
        inWindow w r.rolled_at)).map (fun r => r.value) := by
  unfold lbVals lbFiltered
  rw [List.filter_filter]
  congr 1
  apply List.filter_congr
  intro r _
  have ha : lbActorOk p r.actor_type = (r.actor_type == "user") := by
    unfold lbActorOk
    rw [if_neg (by rw [hp]; exact Bool.false_ne_true)]
  rw [ha]
  cases h1 : (r.user_id == uid) <;> cases h2 : (r.actor_type == "user") <;>
    cases h3 : inWindow w r.rolled_at <;> simp [h1, h2, h3]

theorem lbScoreOf_today (rolls : List Roll) (w : Option (ℤ × ℤ)) (uid : ℤ) :
    lbScoreOf "today" rolls w uid = listMax (lbVals "today" rolls w uid) := rfl

theorem lbScoreOf_sum_period (p : String) (hp : (p == "today") = false)
    (rolls : List Roll) (w : Option (ℤ × ℤ)) (uid : ℤ) :
    lbScoreOf p rolls w uid = (lbVals p rolls w uid).sum := by
  unfold lbScoreOf lbAgg
  rw [if_neg (by rw [hp]; exact Bool.false_ne_true)]

/-! ## Claims -/

/-- Claim C5, corrected: for every instant `now` the day window of
`today_range` contains `now`, starts at local midnight of `now`'s local
calendar date, and spans 86400 seconds except exactly on the DST
transition days, where it spans 82800 (spring) or 90000 (autumn)
seconds — not always exactly 86400 as claimed.  The modelled zone
data's transition days are the local dates 19813 (2024-03-31), 20177
(2025-03-30) for spring and 20023 (2024-10-27), 20387 (2025-10-26) for
autumn; the two biconditionals pin the shorter and longer spans to
precisely those dates, so every other day spans exactly 86400
seconds. -/
theorem C5_day_window_amended (now : ℤ) :
    ((today_range now).2 - (today_range now).1 = 86400 ∨
      (today_range now).2 - (today_range now).1 = 82800 ∨
      (today_range now).2 - (today_range now).1 = 90000) ∧
    ((today_range now).2 - (today_range now).1 = 82800 ↔
      (localDate now = 19813 ∨ localDate now = 20177)) ∧
    ((today_range now).2 - (today_range now).1 = 90000 ↔
      (localDate now = 20023 ∨ localDate now = 20387)) ∧
    (today_range now).1 ≤ now ∧ now < (today_range now).2 ∧
    toLocal (today_range now).1 % 86400 = 0 ∧
    localDate (today_range now).1 = localDate now := by
  simp only [today_range, fromLocalNaive, offsetLocal, localDate, toLocal, offsetUtc,
    dstLocal, dstUtc]
  split_ifs <;> omega

/-- Claim C5, counterexample: around local noon of 2024-03-31 (the
spring DST transition in Europe/Stockholm) the day window spans 82800
seconds, not 86400. -/
theorem C5_day_window_counterexample :
    (today_range 1711879200).2 - (today_range 1711879200).1 = 82800 ∧
    ¬ (today_range 1711879200).2 - (today_range 1711879200).1 = 86400 := by
  decide

/-- Claim C6, corrected: every window query compares `rolled_at` with
SQL `BETWEEN`, the closed interval: a record is counted iff
`start ≤ rolled_at ≤ end`.  A record whose timestamp equals `end` is
included, not excluded. -/
theorem C6_window_closed_amended :
    (∀ s e r, botTodayFilter s e r = true ↔
        r.actor_type = "bot" ∧ s ≤ r.rolled_at ∧ r.rolled_at ≤ e) ∧
    (∀ (rolls : List Roll) s e uid r, r ∈ userRowsIn rolls (some (s, e)) uid ↔
        r ∈ rolls ∧ (r.user_id = uid ∧ r.actor_type = "user") ∧
          s ≤ r.rolled_at ∧ r.rolled_at ≤ e) ∧
    (∀ p (rolls : List Roll) s e r, r ∈ lbFiltered p rolls (some (s, e)) ↔
        r ∈ rolls ∧ (s ≤ r.rolled_at ∧ r.rolled_at ≤ e) ∧
          lbActorOk p r.actor_type = true) := by
  refine ⟨fun s e r => ?_, fun rolls s e uid r => ?_, fun p rolls s e r => ?_⟩
  · simp [botTodayFilter, sqlBetween, and_assoc]
  · simp [userRowsIn, inWindow, sqlBetween, List.mem_filter, and_assoc]
  · simp [lbFiltered, inWindow, sqlBetween, List.mem_filter, and_assoc]

/-- Claim C6, counterexample: day 0's window ends at timestamp 82800,
and a bot record stamped exactly 82800 is counted by
`bot_rolled_today`, although the claim requires a record whose
timestamp equals the window end to be excluded. -/
theorem C6_window_counterexample :
    (today_range 0).2 = 82800 ∧
    bot_rolled_today [⟨0, "RollF", 5, 82800, "bot"⟩] 0 = true := by
  decide

/-- Claim C2, confirmed: for every participant the streak calculation
returns the spec-side pair — `best_streak` is the length of the longest
run of consecutive distinct local dates among the participant's draws,
and `current_streak` is 0 when today is absent and otherwise 1 plus the
immediately preceding consecutive days present; zero draws give
`(0, 0)`; and on dates `{0, 1, 2, 4}` the result is `best = 3` with
`current = 1` when today is date 4 and `current = 0` on date 5. -/
theorem C2_streaks_confirmed :
    (∀ (rolls : List Roll) (uid now : ℤ), calculate_streaks rolls uid now =
        (specCurrent (datesOf rolls uid) (localDate now),
          specBest (datesOf rolls uid))) ∧
    (∀ (uid now : ℤ), calculate_streaks [] uid now = (0, 0)) ∧
    calculate_streaks exampleRolls 1 345600 = (1, 3) ∧
    calculate_streaks exampleRolls 1 432000 = (0, 3) :=
  ⟨calculate_streaks_eq, fun _ _ => rfl, by decide, by decide⟩

/-- Claim C10, confirmed: the current streak never exceeds the best
streak, for every stored table, participant and instant. -/
theorem C10_current_le_best (rolls : List Roll) (uid now : ℤ) :
    (calculate_streaks rolls uid now).1 ≤ (calculate_streaks rolls uid now).2 := by
  rw [calculate_streaks_eq]
  exact specCurrent_le_specBest _ _

/-- Claim C1, confirmed: if a system draw already exists in today's
window, the scheduler loop body inserts nothing and delivers nothing
however many times it runs that day (the table is left unchanged and
the number of draw outcomes is zero), and the post-sleep re-check
equally guards the insert. -/
theorem C1_scheduler_idempotent :
    (∀ (rolls : List Roll) (now0 : ℤ) (iters : List (ℤ × ℤ × ℤ)),
        bot_rolled_today rolls now0 = true →
        (∀ e ∈ iters, localDate e.1 = localDate now0) →
        runIters rolls iters = (rolls, 0)) ∧
    (∀ (rollsFirst : List Roll) (now delay : ℤ) (rollsSecond : List Roll) (v : ℤ),
        bot_rolled_today rollsSecond (recheckTime now delay) = true →
        iterInserts (loopIter rollsFirst now delay rollsSecond v) = [] ∧
        iterDelivers (loopIter rollsFirst now delay rollsSecond v) = false) := by
  constructor
  · intro rolls now0 iters h hdays
    induction iters with
    | nil => rfl
    | cons it rest ih =>
      obtain ⟨now, delay, v⟩ := it
      have hd : localDate now = localDate now0 :=
        hdays (now, delay, v) (List.mem_cons_self _ _)
      have hbt : bot_rolled_today rolls now = true := by
        rw [bot_rolled_today_congr rolls hd]
        exact h
      have ho : loopIter rolls now delay rolls v = .sleepUntilNext (tomorrow555 now) := by
        unfold loopIter
        rw [if_pos hbt]
      have ih2 := ih (fun e he => hdays e (List.mem_cons_of_mem _ he))
      simp [runIters, ho, iterInserts, iterDelivers, ih2]
  · intro rf now delay rs v h
    unfold loopIter
    by_cases h1 : bot_rolled_today rf now = true
    · rw [if_pos h1]
      exact ⟨rfl, rfl⟩
    · rw [if_neg h1]
      by_cases h2 : (10 : ℤ) ≤ hourOf now
      · rw [if_pos h2]
        exact ⟨rfl, rfl⟩
      · rw [if_neg h2, if_pos h]
        exact ⟨rfl, rfl⟩

/-- Witness for claim C1: with today's system draw stored, two loop
iterations on day 0 leave the table unchanged and perform zero draws,
and an iteration whose re-check sees the draw inserts nothing. -/
theorem C1_scheduler_idempotent_witness :
    runIters c1Rolls [(39600, 5, 7), (46800, 5, 7)] = (c1Rolls, 0) ∧
    iterInserts (loopIter [] 10800 5 c1Rolls 7) = [] :=
  ⟨C1_scheduler_idempotent.1 c1Rolls 39600 [(39600, 5, 7), (46800, 5, 7)]
      (by decide) (by decide),
    (C1_scheduler_idempotent.2 [] 10800 5 c1Rolls 7 (by decide)).1⟩

/-- Claim C7, confirmed: at local hour 10 or later with no system draw
yet today, the loop body inserts nothing, delivers nothing, and sleeps
until the next wake-up, which falls at 05:55 local time on the
following local calendar date. -/
theorem C7_skip_after_cutoff (rollsFirst rollsSecond : List Roll) (now delay v : ℤ)
    (hno : bot_rolled_today rollsFirst now = false) (hh : 10 ≤ hourOf now) :
    loopIter rollsFirst now delay rollsSecond v = .sleepUntilNext (tomorrow555 now) ∧
    iterInserts (loopIter rollsFirst now delay rollsSecond v) = [] ∧
    iterDelivers (loopIter rollsFirst now delay rollsSecond v) = false ∧
    localDate (tomorrow555 now) = localDate now + 1 ∧
    secOfDay (tomorrow555 now) = 21300 := by
  have ho : loopIter rollsFirst now delay rollsSecond v =
      .sleepUntilNext (tomorrow555 now) := by
    unfold loopIter
    rw [if_neg (by rw [hno]; exact Bool.false_ne_true), if_pos hh]
  refine ⟨ho, by rw [ho]; rfl, by rw [ho]; rfl, ?_, ?_⟩ <;>
  · simp only [tomorrow555, fromLocalNaive, offsetLocal, localDate, secOfDay, toLocal,
      offsetUtc, dstLocal, dstUtc]
    split_ifs <;> omega

/-- Witness for claim C7: at local noon of day 0 with an empty table,
the body sleeps until timestamp 104100, which is 05:55 local on day 1. -/
theorem C7_skip_after_cutoff_witness :
    loopIter [] 39600 5 [] 7 = .sleepUntilNext (tomorrow555 39600) ∧
    iterInserts (loopIter [] 39600 5 [] 7) = [] ∧
    iterDelivers (loopIter [] 39600 5 [] 7) = false ∧
    localDate (tomorrow555 39600) = localDate 39600 + 1 ∧
    secOfDay (tomorrow555 39600) = 21300 :=
  C7_skip_after_cutoff [] [] 39600 5 7 (by decide) (by decide)

/-- Claim C8, confirmed: when the caller already has a user-actor draw
inside today's window, `/roll` leaves the store untouched (no insert,
no profile upsert) and reports, as an ordinary outcome, the value of an
existing matching record together with the clamped remaining time to
local midnight. -/
theorem C8_already_rolled (st : Store) (now uid : ℤ) (uname : String) (value : ℤ)
    (h : ∃ r ∈ st.rolls, r.user_id = uid ∧ r.actor_type = "user" ∧
        (today_range now).1 ≤ r.rolled_at ∧ r.rolled_at ≤ (today_range now).2) :
    (roll_cmd st now uid uname value).2 = st ∧
    ∃ r0 ∈ st.rolls, r0.user_id = uid ∧ r0.actor_type = "user" ∧
      (today_range now).1 ≤ r0.rolled_at ∧ r0.rolled_at ≤ (today_range now).2 ∧
      (roll_cmd st now uid uname value).1 =
        RollOutcome.already r0.value (max 0 ((today_range now).2 - now)) := by
  have hex : ∃ r ∈ st.rolls, (fun r : Roll =>
      r.user_id == uid && r.actor_type == "user" &&
      sqlBetween r.rolled_at (today_range now).1 (today_range now).2) r = true := by
    obtain ⟨r, hmem, h1, h2, h3, h4⟩ := h
    refine ⟨r, hmem, ?_⟩
    simp [sqlBetween, h1, h2, h3, h4]
  have hsome := List.find?_isSome.mpr hex
  obtain ⟨r0, hfind⟩ := Option.isSome_iff_exists.mp hsome
  have hp := List.find?_some hfind
  have hmem0 := List.mem_of_find?_eq_some hfind
  simp only [sqlBetween, Bool.and_eq_true, beq_iff_eq, decide_eq_true_eq] at hp
  obtain ⟨⟨hid, ha⟩, hs, he⟩ := hp
  unfold roll_cmd
  rw [hfind]
  exact ⟨rfl, r0, hmem0, hid, ha, hs, he, rfl⟩

/-- Witness for claim C8: with a stored draw of value 42 at timestamp
1000 and `now = 1000`, the command changes nothing and reports the
already-rolled outcome. -/
theorem C8_already_rolled_witness :
    (roll_cmd c8Store 1000 1 "alice" 7).2 = c8Store ∧
    ∃ r0 ∈ c8Store.rolls, r0.user_id = 1 ∧ r0.actor_type = "user" ∧
      (today_range 1000).1 ≤ r0.rolled_at ∧ r0.rolled_at ≤ (today_range 1000).2 ∧
      (roll_cmd c8Store 1000 1 "alice" 7).1 =
        RollOutcome.already r0.value (max 0 ((today_range 1000).2 - 1000)) :=
  C8_already_rolled c8Store 1000 1 "alice" 7 (by decide)

/-- Claim C4, confirmed: for the `today` period the leaderboard
aggregate of a participant is the maximum single value among that
participant's rows in the window with actor class user or bot (system
draws included); for every other period (`week`, `month`, `year`,
`alltime`) it is the sum of the participant's user-actor values in the
window. -/
theorem C4_day_max_rest_sum :
    (∀ (rolls : List Roll) (w : Option (ℤ × ℤ)) (uid : ℤ),
        ((rolls.filter (fun r => r.user_id == uid &&
            (r.actor_type == "user" || r.actor_type == "bot") &&
            inWindow w r.rolled_at)).map (fun r => r.value)) ≠ [] →
        lbScoreOf "today" rolls w uid ∈
            ((rolls.filter (fun r => r.user_id == uid &&
              (r.actor_type == "user" || r.actor_type == "bot") &&
              inWindow w r.rolled_at)).map (fun r => r.value)) ∧
          ∀ v ∈ ((rolls.filter (fun r => r.user_id == uid &&
              (r.actor_type == "user" || r.actor_type == "bot") &&
              inWindow w r.rolled_at)).map (fun r => r.value)),
            v ≤ lbScoreOf "today" rolls w uid) ∧
    (∀ (rolls : List Roll) (w : Option (ℤ × ℤ)) (uid : ℤ),
        lbScoreOf "week" rolls w uid =
          ((rolls.filter (fun r => r.user_id == uid && r.actor_type == "user" &&
            inWindow w r.rolled_at)).map (fun r => r.value)).sum ∧
        lbScoreOf "month" rolls w uid =
          ((rolls.filter (fun r => r.user_id == uid && r.actor_type == "user" &&
            inWindow w r.rolled_at)).map (fun r => r.value)).sum ∧
        lbScoreOf "year" rolls w uid =
          ((rolls.filter (fun r => r.user_id == uid && r.actor_type == "user" &&
            inWindow w r.rolled_at)).map (fun r => r.value)).sum ∧
        lbScoreOf "alltime" rolls w uid =
          ((rolls.filter (fun r => r.user_id == uid && r.actor_type == "user" &&
            inWindow w r.rolled_at)).map (fun r => r.value)).sum) := by
  constructor
  · intro rolls w uid hne
    rw [lbScoreOf_today, lbVals_today]
    exact ⟨listMax_mem hne, fun v hv => le_listMax hv⟩
  · intro rolls w uid
    refine ⟨?_, ?_, ?_, ?_⟩ <;>
      rw [lbScoreOf_sum_period _ (by decide) rolls w uid, lbVals_sum_period _ (by decide)]

/-- Witness for claim C4: in `c4Rolls` the system's own draw (value 99,
participant id 0) is its day score: it is a member of and an upper
bound for the day window's value list; the week score of participant 1
is the plain sum 10. -/
theorem C4_day_max_rest_sum_witness :
    (lbScoreOf "today" c4Rolls (some (0, 100)) 0 ∈
        ((c4Rolls.filter (fun r => r.user_id == 0 &&
          (r.actor_type == "user" || r.actor_type == "bot") &&
          inWindow (some (0, 100)) r.rolled_at)).map (fun r => r.value)) ∧
      ∀ v ∈ ((c4Rolls.filter (fun r => r.user_id == 0 &&
          (r.actor_type == "user" || r.actor_type == "bot") &&
          inWindow (some (0, 100)) r.rolled_at)).map (fun r => r.value)),
        v ≤ lbScoreOf "today" c4Rolls (some (0, 100)) 0) ∧
    lbScoreOf "week" c4Rolls (some (0, 100)) 1 =
      ((c4Rolls.filter (fun r => r.user_id == 1 && r.actor_type == "user" &&
        inWindow (some (0, 100)) r.rolled_at)).map (fun r => r.value)).sum :=
  ⟨C4_day_max_rest_sum.1 c4Rolls (some (0, 100)) 0 (by decide),
    (C4_day_max_rest_sum.2 c4Rolls (some (0, 100)) 1).1⟩

/-- Claim C3, corrected: in the stats queries (`get_user_stats` with no
window, `get_period_stats` with a window) the reported rank of a
participant with a draw in the window equals 1 plus the number of
distinct participants with strictly greater aggregate score, so equal
scores share a rank; a participant with no draw in the window is
reported rank 1.  The leaderboard's own-position rank is instead the
participant's 1-based position in the score-descending ranking list: it
coincides with the 1-plus-count rule whenever all aggregate scores are
distinct, but tied participants receive distinct consecutive positions
there rather than a shared rank. -/
theorem C3_rank_rule_amended :
    (∀ (rolls : List Roll) (w : Option (ℤ × ℤ)) (uid : ℤ),
        uid ∈ participantsIn rolls w →
        rankIn rolls w uid = 1 + ((participantsIn rolls w).filter
          (fun v => scoreIn rolls w uid < scoreIn rolls w v)).card) ∧
    (∀ (rolls : List Roll) (w : Option (ℤ × ℤ)) (uid : ℤ),
        uid ∉ participantsIn rolls w → rankIn rolls w uid = 1) ∧
    (∀ (p : String) (rolls : List Roll) (w : Option (ℤ × ℤ)) (uid s : ℤ),
        ((lbRanking p rolls w).map Prod.snd).Nodup →
        (uid, s) ∈ lbRanking p rolls w →
        lbUserRank p rolls w uid =
          some (1 + ((lbRanking p rolls w).filter
            (fun q => decide (s < q.2))).length)) :=
  ⟨rankIn_eq_of_mem, rankIn_eq_one_of_not_mem,
    fun p rolls w _ _ hnd hmem =>
      pos_eq_count (lbRanking_sorted p rolls w) hnd (lbRanking_fst_nodup p rolls w) hmem⟩

/-- Witness for claim C3: participant 12 of `c3Rolls` has stats-query
rank 11 (ten strictly greater sums), matching the shared-rank rule. -/
theorem C3_rank_rule_amended_witness :
    rankIn c3Rolls (some (0, 1000)) 12 =
      1 + ((participantsIn c3Rolls (some (0, 1000))).filter
        (fun v => scoreIn c3Rolls (some (0, 1000)) 12 <
          scoreIn c3Rolls (some (0, 1000)) v)).card :=
  C3_rank_rule_amended.1 c3Rolls (some (0, 1000)) 12 (by decide)

/-- Claim C3, counterexample: participants 11 and 12 of `c3Rolls` are
tied at score 50 below ten higher scores.  The shared-rank rule gives
both rank 11, but the leaderboard's own-position scan reports rank 12
for participant 12, who is outside the visible top 10. -/
theorem C3_rank_rule_counterexample :
    lbUserRank "week" c3Rolls (some (0, 1000)) 12 = some 12 ∧
    1 + ((participantsIn c3Rolls (some (0, 1000))).filter
      (fun v => lbScoreOf "week" c3Rolls (some (0, 1000)) 12 <
        lbScoreOf "week" c3Rolls (some (0, 1000)) v)).card = 11 ∧
    ¬ (12 : ℤ) ∈ lbTopIds "week" c3Rolls (some (0, 1000)) := by
  decide

/-- Claim C9, code bug: per-destination containment holds for a
vanished destination (silent skip), a permission loss at resolution or
at send (best-effort owner notice whose own failure is swallowed), and
a transient resolution failure (skip), but `channel.send` is guarded
only against the permission error, so a transient HTTP failure of the
send itself escapes the fan-out as an unhandled fault, aborting
delivery to all remaining destinations. -/
theorem C9_send_transient_escapes :
    fanOut [⟨.cachedOk, .sendHttpError, false⟩, ⟨.cachedOk, .sendOk, false⟩] =
      ([.uncaught], true) ∧
    handleDest ⟨.fetchNotFound, .sendOk, false⟩ = .skippedNotFound ∧
    handleDest ⟨.fetchForbidden, .sendOk, true⟩ = .forbiddenNoticed ∧
    handleDest ⟨.fetchHttpError, .sendOk, false⟩ = .skippedTransientResolve ∧
    handleDest ⟨.cachedOk, .sendForbidden, true⟩ = .forbiddenNoticed ∧
    handleDest ⟨.fetchOk, .sendOk, false⟩ = .delivered := by
  decide


end Rollf
